import Mathlib

/-!
Verification of the real-time body-tracking frame pipeline of this
repository: a MediaPipe pose loop that flattens landmarks into an OSC
keypoint vector, and a selfie-segmentation loop that thresholds a
confidence map into a binary mask, optionally blurs it, and renders a
matte (masked copy) or a silhouette raster.

Images are embedded as lists of rows; confidences and landmark
coordinates as rationals; 8-bit pixel channels as naturals.  The
Gaussian blur is embedded as a convolution with a normalized separable
kernel given by positive integer weights over their sum, with OpenCV's
default BORDER_REFLECT_101 border and round-to-nearest.
-/

namespace TrackingBody

/-- A 3-channel 8-bit pixel (B, G, R channel values). -/
abbrev Px := ℕ × ℕ × ℕ

/-- A single-channel confidence raster (`results.segmentation_mask`), values in [0,1]. -/
abbrev SegMap := List (List ℚ)

/-- A single-channel 8-bit raster (`body_mask`). -/
abbrev Mask := List (List ℕ)

/-- A 3-channel colour raster (`frame`, `body_only`, `silhouette`). -/
abbrev ColorFrame := List (List Px)

/-- One pixel of `(seg > theta).astype(np.uint8) * 255`: the boolean cast
gives 1 when the confidence strictly exceeds the threshold, 0 otherwise,
and the product scales it to 255. -/
def maskPixel (theta v : ℚ) : ℕ := (if v > theta then 1 else 0) * 255

/-- The thresholding transform with the confidence threshold as a parameter. -/
def thresholdMask (theta : ℚ) (seg : SegMap) : Mask :=
  seg.map (fun row => row.map (maskPixel theta))

/-- Source line `body_mask = (results.segmentation_mask > 0.6).astype(np.uint8) * 255`,
with the threshold 0.6 inline exactly as the source hardcodes it. -/
def body_mask_src (seg : SegMap) : Mask :=
  seg.map (fun row => row.map (fun v => (if v > 6/10 then 1 else 0) * 255))

/-- Pixel of a mask at row i, column j (0 outside the raster). -/
def maskAt (m : Mask) (i j : ℕ) : ℕ := (m.getD i []).getD j 0

/-- Confidence of a segmentation map at row i, column j (0 outside the raster). -/
def segAt (seg : SegMap) (i j : ℕ) : ℚ := (seg.getD i []).getD j 0

/-- Pixel of a colour frame at row i, column j (black outside the raster). -/
def pxAt (img : ColorFrame) (i j : ℕ) : Px := (img.getD i []).getD j (0, 0, 0)

/-- The image has h rows, each of width w. -/
def Dims {α : Type} (h w : ℕ) (img : List (List α)) : Prop :=
  img.length = h ∧ ∀ r ∈ img, r.length = w

/-- OpenCV BORDER_REFLECT_101 index folding onto [0, n): `gfedcb|abcdefgh|gfedcba`. -/
def reflect101 (n : ℕ) (i : ℤ) : ℕ :=
  if n ≤ 1 then 0 else
    let p : ℤ := 2 * ((n : ℤ) - 1)
    let m : ℤ := i % p
    (if m < (n : ℤ) then m else p - m).toNat

/-- Mask sample at (possibly out-of-range) integer coordinates, folded back
into the raster with BORDER_REFLECT_101. -/
def getPix (img : Mask) (h w : ℕ) (i j : ℤ) : ℕ :=
  (img.getD (reflect101 h i) []).getD (reflect101 w j) 0

/-- One output pixel of `cv2.GaussianBlur(body_mask, (15, 15), 0)`: separable
convolution with the normalized kernel whose weights are `k` over the common
denominator `k.sum`, rounded to nearest. -/
def blurPix (k : List ℕ) (img : Mask) (h w : ℕ) (i j : ℕ) : ℕ :=
  let c := (k.length - 1) / 2
  let d := k.sum
  let S := ∑ a ∈ Finset.range k.length, ∑ b ∈ Finset.range k.length,
    k.getD a 0 * k.getD b 0 * getPix img h w ((i : ℤ) + a - c) ((j : ℤ) + b - c)
  (2 * S + d * d) / (2 * (d * d))

/-- The blur of a whole mask. -/
def gaussianBlur (k : List ℕ) (img : Mask) : Mask :=
  let h := img.length
  let w := (img.headD []).length
  (List.range h).map (fun i => (List.range w).map (fun j => blurPix k img h w i j))

/-- A valid 15-tap smoothing kernel, as fixed by the source's `(15, 15)`
argument: 15 strictly positive integer weights (normalized by their sum). -/
def GaussKer (k : List ℕ) : Prop := k.length = 15 ∧ ∀ x ∈ k, 0 < x

/-- The uniform 15-tap kernel, a concrete member of `GaussKer`. -/
def uniform15 : List ℕ := List.replicate 15 1

/-- Channelwise bitwise AND of two pixels. -/
def landPx (p q : Px) : Px := (p.1 &&& q.1, p.2.1 &&& q.2.1, p.2.2 &&& q.2.2)

/-- `cv2.bitwise_and(frame, frame, mask=body_mask)`: the destination starts
all-zero and receives `frame & frame` wherever the mask is nonzero. -/
def bitwise_and_masked (frame : ColorFrame) (mask : Mask) : ColorFrame :=
  List.zipWith (fun frow mrow =>
    List.zipWith (fun p m => if m ≠ 0 then landPx p p else (0, 0, 0)) frow mrow)
    frame mask

/-- Matte mode (first segmentation loop): threshold at 0.6, Gaussian blur,
then masked copy of the frame. -/
def body_only (k : List ℕ) (seg : SegMap) (frame : ColorFrame) : ColorFrame :=
  bitwise_and_masked frame (gaussianBlur k (body_mask_src seg))

/-- The white silhouette pixel `[255, 255, 255]`. -/
def whitePx : Px := (255, 255, 255)

/-- `silhouette = np.zeros_like(frame); silhouette[body_mask == 255] = [255, 255, 255]`:
black raster of the frame's shape, white exactly where the mask is 255. -/
def silhouette_render (mask : Mask) (frame : ColorFrame) : ColorFrame :=
  List.zipWith (fun mrow frow =>
    List.zipWith (fun m _ => if m = 255 then whitePx else (0, 0, 0)) mrow frow)
    mask frame

/-- Silhouette mode (second segmentation loop): threshold at 0.6, then render
directly — the source applies no blur in this loop. -/
def silhouette (seg : SegMap) (frame : ColorFrame) : ColorFrame :=
  silhouette_render (body_mask_src seg) frame

/-- What the spec's words prescribe for silhouette mode: render from the
*blurred* thresholded mask. -/
def silhouette_blurred (k : List ℕ) (seg : SegMap) (frame : ColorFrame) : ColorFrame :=
  silhouette_render (gaussianBlur k (body_mask_src seg)) frame

/-- A constant segmentation map of h rows and w columns. -/
def constSeg (h w : ℕ) (v : ℚ) : SegMap :=
  List.replicate h (List.replicate w v)

/-- `keypoints`: the pose loop runs `keypoints.extend([landmark.x, landmark.y])`
over `results.pose_landmarks.landmark`, flattening each landmark's
normalized (x, y) in landmark order. -/
def keypoints : List (ℚ × ℚ) → List ℚ
  | [] => []
  | p :: rest => p.1 :: p.2 :: keypoints rest

/-- An OSC datagram: address path and float payload. -/
abbrev OscMsg := String × List ℚ

/-- Messages the pose loop sends in one cycle: the landmark guard
`if results.pose_landmarks:` wraps the build-and-send, so an absent
detection sends nothing. -/
def poseSends : Option (List (ℚ × ℚ)) → List OscMsg
  | none => []
  | some lms => [("/pose", keypoints lms)]

/-- One iteration of the pose capture loop: `ret` is the capture result,
`lms` the optional landmark set, `quitKey` whether waitKey saw q.
Returns the messages sent and whether the loop breaks. -/
def poseIteration (ret : Bool) (lms : Option (List (ℚ × ℚ))) (quitKey : Bool) :
    List OscMsg × Bool :=
  if ret = false then ([], true)
  else (poseSends lms, quitKey)

/- ### Helper lemmas -/

theorem getD_map_default {α β : Type} (f : α → β) (l : List α) (i : ℕ) (d : α) :
    (l.map f).getD i (f d) = f (l.getD i d) := by
  induction l generalizing i with
  | nil => simp
  | cons a t ih =>
    cases i with
    | zero => simp
    | succ n =>
      simp only [List.map_cons, List.getD_cons_succ]
      exact ih n

theorem getD_zipWith {α β γ : Type} (f : α → β → γ) (l₁ : List α) (l₂ : List β)
    (i : ℕ) (d₁ : α) (d₂ : β) (d : γ)
    (h₁ : i < l₁.length) (h₂ : i < l₂.length) :
    (List.zipWith f l₁ l₂).getD i d = f (l₁.getD i d₁) (l₂.getD i d₂) := by
  induction l₁ generalizing l₂ i with
  | nil => simp at h₁
  | cons a t ih =>
    cases l₂ with
    | nil => simp at h₂
    | cons b t2 =>
      cases i with
      | zero => simp
      | succ n =>
        simp only [List.zipWith_cons_cons, List.getD_cons_succ]
        exact ih t2 n (by simpa using h₁) (by simpa using h₂)

theorem getD_replicate_of_lt {α : Type} (n i : ℕ) (a d : α) (h : i < n) :
    (List.replicate n a).getD i d = a := by
  induction n generalizing i with
  | zero => omega
  | succ m ih =>
    cases i with
    | zero => simp
    | succ j =>
      rw [List.replicate_succ, List.getD_cons_succ]
      exact ih j (by omega)

theorem getD_map_range {α : Type} (f : ℕ → α) (h i : ℕ) (d : α) (hi : i < h) :
    ((List.range h).map f).getD i d = f i := by
  rw [List.getD_eq_getElem?_getD, List.getElem?_map, List.getElem?_range hi]
  rfl

theorem zipWith_replicate_right {α β γ : Type} (f : α → β → γ) (l : List α)
    (w : ℕ) (c : β) (h : l.length = w) :
    List.zipWith f l (List.replicate w c) = l.map (fun a => f a c) := by
  induction l generalizing w with
  | nil => simp
  | cons a t ih =>
    cases w with
    | zero => simp at h
    | succ m =>
      simp only [List.replicate_succ, List.zipWith_cons_cons, List.map_cons]
      rw [ih m (by simpa using h)]

theorem getD_mem_of_lt {α : Type} (l : List α) (n : ℕ) (d : α) (h : n < l.length) :
    l.getD n d ∈ l := by
  have h1 : l.getD n d = l[n] := by
    rw [List.getD_eq_getElem?_getD, List.getElem?_eq_getElem h]
    rfl
  rw [h1]
  exact List.getElem_mem h

theorem nat_land_self (n : ℕ) : n &&& n = n := by
  apply Nat.eq_of_testBit_eq
  intro i
  rw [Nat.testBit_land]
  exact Bool.and_self _

theorem landPx_self (p : Px) : landPx p p = p := by
  simp [landPx, nat_land_self]

theorem maskAt_thresholdMask (theta : ℚ) (htheta : 0 ≤ theta) (seg : SegMap) (i j : ℕ) :
    maskAt (thresholdMask theta seg) i j = maskPixel theta (segAt seg i j) := by
  have h0 : maskPixel theta 0 = 0 := by
    simp [maskPixel, not_lt.mpr htheta]
  unfold maskAt thresholdMask segAt
  have h1 : (seg.map (fun row => row.map (maskPixel theta))).getD i []
      = (seg.getD i []).map (maskPixel theta) := by
    simpa using getD_map_default (fun row => row.map (maskPixel theta)) seg i []
  rw [h1]
  calc ((seg.getD i []).map (maskPixel theta)).getD j 0
      = ((seg.getD i []).map (maskPixel theta)).getD j (maskPixel theta 0) := by rw [h0]
    _ = maskPixel theta ((seg.getD i []).getD j 0) :=
        getD_map_default (maskPixel theta) (seg.getD i []) j 0

theorem sum_range_getD (k : List ℕ) :
    ∑ a ∈ Finset.range k.length, k.getD a 0 = k.sum := by
  induction k with
  | nil => simp
  | cons x t ih =>
    rw [List.length_cons, Finset.sum_range_succ', List.sum_cons]
    simp only [List.getD_cons_succ, List.getD_cons_zero]
    rw [ih]
    omega

theorem reflect101_lt (n : ℕ) (i : ℤ) (hn : 0 < n) : reflect101 n i < n := by
  unfold reflect101
  by_cases h1 : n ≤ 1
  · simp [h1, hn]
  · simp only [h1, if_false]
    push_neg at h1
    have hp : (0 : ℤ) < 2 * ((n : ℤ) - 1) := by
      have : (2 : ℤ) ≤ (n : ℤ) := by exact_mod_cast h1
      linarith
    have hm0 : 0 ≤ i % (2 * ((n : ℤ) - 1)) := Int.emod_nonneg i (by omega)
    have hmlt : i % (2 * ((n : ℤ) - 1)) < 2 * ((n : ℤ) - 1) := Int.emod_lt_of_pos i hp
    by_cases h2 : i % (2 * ((n : ℤ) - 1)) < (n : ℤ)
    · simp only [h2, if_true]
      omega
    · simp only [h2, if_false]
      push_neg at h2
      omega

theorem getPix_const (h w : ℕ) (c : ℕ) (i j : ℤ) (hh : 0 < h) (hw : 0 < w) :
    getPix (List.replicate h (List.replicate w c)) h w i j = c := by
  unfold getPix
  rw [getD_replicate_of_lt h (reflect101 h i) _ _ (reflect101_lt h i hh)]
  rw [getD_replicate_of_lt w (reflect101 w j) _ _ (reflect101_lt w j hw)]

theorem blurPix_const (k : List ℕ) (hk : GaussKer k) (h w : ℕ) (c : ℕ) (i j : ℕ)
    (hh : 0 < h) (hw : 0 < w) :
    blurPix k (List.replicate h (List.replicate w c)) h w i j = c := by
  obtain ⟨hlen, hpos⟩ := hk
  have hd : 0 < k.sum := by
    have : k ≠ [] := by
      intro hnil; rw [hnil] at hlen; simp at hlen
    cases k with
    | nil => simp at this
    | cons x t =>
      have hx : 0 < x := hpos x (by simp)
      simp only [List.sum_cons]
      omega
  unfold blurPix
  have hsamp : ∀ a b : ℕ,
      getPix (List.replicate h (List.replicate w c)) h w
        ((i : ℤ) + a - ((k.length - 1) / 2 : ℕ)) ((j : ℤ) + b - ((k.length - 1) / 2 : ℕ)) = c := by
    intro a b
    exact getPix_const h w c _ _ hh hw
  have hS : (∑ a ∈ Finset.range k.length, ∑ b ∈ Finset.range k.length,
      k.getD a 0 * k.getD b 0 * getPix (List.replicate h (List.replicate w c)) h w
        ((i : ℤ) + a - ((k.length - 1) / 2 : ℕ)) ((j : ℤ) + b - ((k.length - 1) / 2 : ℕ)))
      = c * (k.sum * k.sum) := by
    calc (∑ a ∈ Finset.range k.length, ∑ b ∈ Finset.range k.length,
        k.getD a 0 * k.getD b 0 * getPix (List.replicate h (List.replicate w c)) h w
          ((i : ℤ) + a - ((k.length - 1) / 2 : ℕ)) ((j : ℤ) + b - ((k.length - 1) / 2 : ℕ)))
        = ∑ a ∈ Finset.range k.length, ∑ b ∈ Finset.range k.length,
            k.getD a 0 * k.getD b 0 * c := by
          refine Finset.sum_congr rfl (fun a _ => Finset.sum_congr rfl (fun b _ => ?_))
          rw [hsamp a b]
      _ = ∑ a ∈ Finset.range k.length, k.getD a 0 * (k.sum * c) := by
          refine Finset.sum_congr rfl (fun a _ => ?_)
          rw [← Finset.sum_mul, ← Finset.mul_sum, sum_range_getD]
          ring
      _ = k.sum * (k.sum * c) := by rw [← Finset.sum_mul, sum_range_getD]
      _ = c * (k.sum * k.sum) := by ring
  simp only [hS]
  have hdd : 0 < k.sum * k.sum := Nat.mul_pos hd hd
  have : 2 * (c * (k.sum * k.sum)) + k.sum * k.sum = (k.sum * k.sum) * (2 * c + 1) := by ring
  rw [this, show 2 * (k.sum * k.sum) = (k.sum * k.sum) * 2 by ring,
    Nat.mul_div_mul_left _ _ hdd]
  omega

theorem gaussianBlur_eq (k : List ℕ) (img : Mask) :
    gaussianBlur k img = (List.range img.length).map (fun i =>
      (List.range (img.headD []).length).map (fun j =>
        blurPix k img img.length (img.headD []).length i j)) := rfl

theorem gaussianBlur_const255 (k : List ℕ) (hk : GaussKer k) (h w : ℕ) :
    gaussianBlur k (List.replicate h (List.replicate w 255))
      = List.replicate h (List.replicate w 255) := by
  cases h with
  | zero => simp [gaussianBlur_eq]
  | succ m =>
    rw [gaussianBlur_eq]
    have hlen : (List.replicate (m + 1) (List.replicate w (255 : ℕ))).length = m + 1 := by
      simp
    have hhead : (List.replicate (m + 1) (List.replicate w (255 : ℕ))).headD [] =
        List.replicate w 255 := by
      rw [List.replicate_succ, List.headD_cons]
    rw [hlen, hhead, List.length_replicate]
    by_cases hw : w = 0
    · subst hw
      simp only [List.range_zero, List.map_nil, List.replicate]
      calc (List.range (m + 1)).map (fun _ => ([] : List ℕ))
          = List.replicate (List.range (m + 1)).length [] := List.map_const' _ _
        _ = List.replicate (m + 1) [] := by rw [List.length_range]
    · have hpix : ∀ i j : ℕ,
          blurPix k (List.replicate (m + 1) (List.replicate w 255)) (m + 1) w i j = 255 :=
        fun i j => blurPix_const k hk (m + 1) w 255 i j (by omega) (by omega)
      calc (List.range (m + 1)).map (fun i => (List.range w).map (fun j =>
            blurPix k (List.replicate (m + 1) (List.replicate w 255)) (m + 1) w i j))
          = (List.range (m + 1)).map (fun _ => List.replicate w (255 : ℕ)) := by
            refine List.map_congr_left (fun i _ => ?_)
            calc (List.range w).map (fun j =>
                  blurPix k (List.replicate (m + 1) (List.replicate w 255)) (m + 1) w i j)
                = (List.range w).map (fun _ => (255 : ℕ)) :=
                  List.map_congr_left (fun j _ => hpix i j)
              _ = List.replicate (List.range w).length 255 := List.map_const' _ _
              _ = List.replicate w 255 := by rw [List.length_range]
        _ = List.replicate (List.range (m + 1)).length (List.replicate w (255 : ℕ)) :=
            List.map_const' _ _
        _ = List.replicate (m + 1) (List.replicate w 255) := by rw [List.length_range]

theorem bitwise_and_masked_all255 (frame : ColorFrame) (h w : ℕ)
    (hd : Dims h w frame) :
    bitwise_and_masked frame (List.replicate h (List.replicate w 255)) = frame := by
  obtain ⟨hl, hr⟩ := hd
  unfold bitwise_and_masked
  rw [zipWith_replicate_right _ frame h _ hl]
  have : ∀ r ∈ frame,
      List.zipWith (fun p m => if m ≠ 0 then landPx p p else ((0 : ℕ), (0 : ℕ), (0 : ℕ)))
        r (List.replicate w 255) = r := by
    intro r hrmem
    rw [zipWith_replicate_right _ r w _ (hr r hrmem)]
    have : ∀ p : Px, (if (255 : ℕ) ≠ 0 then landPx p p else ((0 : ℕ), (0 : ℕ), (0 : ℕ))) = p := by
      intro p
      rw [if_pos (by omega), landPx_self]
    calc r.map (fun p => if (255 : ℕ) ≠ 0 then landPx p p else ((0 : ℕ), (0 : ℕ), (0 : ℕ)))
        = r.map id := List.map_congr_left (fun p _ => this p)
      _ = r := List.map_id r
  calc frame.map (fun r =>
        List.zipWith (fun p m => if m ≠ 0 then landPx p p else ((0 : ℕ), (0 : ℕ), (0 : ℕ)))
          r (List.replicate w 255))
      = frame.map id := List.map_congr_left (fun r hrmem => this r hrmem)
    _ = frame := List.map_id frame

/- ### C1 -/

theorem keypoints_length (lms : List (ℚ × ℚ)) :
    (keypoints lms).length = 2 * lms.length := by
  induction lms with
  | nil => simp [keypoints]
  | cons p rest ih =>
    simp [keypoints, ih]
    omega

/-- C1: the keypoint vector built by the pose loop has length exactly 2N and
element 2i is landmark i's normalized x, element 2i+1 its normalized y, in
ascending landmark index order. -/
theorem keypoint_vector_layout (lms : List (ℚ × ℚ)) :
    (keypoints lms).length = 2 * lms.length ∧
    ∀ i, i < lms.length →
      (keypoints lms).getD (2 * i) 0 = (lms.getD i (0, 0)).1 ∧
      (keypoints lms).getD (2 * i + 1) 0 = (lms.getD i (0, 0)).2 := by
  refine ⟨keypoints_length lms, ?_⟩
  induction lms with
  | nil =>
    intro i hi
    simp at hi
  | cons p rest ih =>
    intro i hi
    cases i with
    | zero => simp [keypoints]
    | succ n =>
      have hn : n < rest.length := by simpa using hi
      have e1 : 2 * (n + 1) = 2 * n + 1 + 1 := by omega
      rw [e1]
      simpa [keypoints] using ih n hn

/-- Witness for C1 at a concrete two-landmark set. -/
theorem keypoint_vector_layout_witness :
    (keypoints [((1 : ℚ)/2, 1/4), (3/4, 1)]).getD 2 0 = 3/4 ∧
    (keypoints [((1 : ℚ)/2, 1/4), (3/4, 1)]).getD 3 0 = 1 := by
  have h := (keypoint_vector_layout [((1 : ℚ)/2, 1/4), (3/4, 1)]).2 1 (by norm_num)
  simpa using h

/- ### C2 -/

/-- C2 counterexample: at threshold 0, a valid segmentation map holding a
confidence of exactly 0 yields a mask pixel of 0, not 255 (the comparison
in the source is strict), so the mask is not all-255 at threshold 0. -/
theorem mask_theta_zero_not_all255 :
    (0 : ℚ) ≤ 0 ∧ (0 : ℚ) ≤ 1 ∧
    thresholdMask 0 [[(0 : ℚ)]] = [[0]] ∧
    thresholdMask 0 [[(0 : ℚ)]] ≠ [[255]] := by
  have h : thresholdMask 0 [[(0 : ℚ)]] = [[0]] := by
    norm_num [thresholdMask, maskPixel]
  refine ⟨le_refl 0, by norm_num, h, ?_⟩
  rw [h]
  decide

/-- C2 (amended): for every threshold in [0,1] and every segmentation map with
values in [0,1], the pre-blur mask holds only 0 and 255; at threshold 1 it is
all-0; the 255-set is monotonically non-increasing in the threshold; and at
threshold 0 a pixel is 255 exactly where its confidence is strictly positive. -/
theorem mask_binary_and_monotone (theta theta1 theta2 : ℚ) (seg : SegMap)
    (h01 : 0 ≤ theta1)
    (hseg : ∀ row ∈ seg, ∀ v ∈ row, 0 ≤ v ∧ v ≤ 1) :
    (∀ row ∈ thresholdMask theta seg, ∀ m ∈ row, m = 0 ∨ m = 255) ∧
    (∀ row ∈ thresholdMask 1 seg, ∀ m ∈ row, m = 0) ∧
    (theta1 ≤ theta2 →
      ∀ i j, maskAt (thresholdMask theta2 seg) i j = 255 →
        maskAt (thresholdMask theta1 seg) i j = 255) ∧
    (∀ i j, maskAt (thresholdMask 0 seg) i j = 255 ↔ 0 < segAt seg i j) := by
  refine ⟨?_, ?_, ?_, ?_⟩
  · intro row hrow m hm
    simp only [thresholdMask, List.mem_map] at hrow
    obtain ⟨srow, _, rfl⟩ := hrow
    simp only [List.mem_map] at hm
    obtain ⟨v, _, rfl⟩ := hm
    by_cases h : v > theta <;> simp [maskPixel, h]
  · intro row hrow m hm
    simp only [thresholdMask, List.mem_map] at hrow
    obtain ⟨srow, hsrow, rfl⟩ := hrow
    simp only [List.mem_map] at hm
    obtain ⟨v, hv, rfl⟩ := hm
    have := (hseg srow hsrow v hv).2
    simp [maskPixel, not_lt.mpr this]
  · intro h12 i j hm
    have ha : 0 ≤ theta2 := le_trans h01 h12
    rw [maskAt_thresholdMask theta2 ha] at hm
    rw [maskAt_thresholdMask theta1 h01]
    simp only [maskPixel] at hm ⊢
    by_cases h : segAt seg i j > theta2
    · have : segAt seg i j > theta1 := lt_of_le_of_lt h12 h
      simp [this]
    · simp [h] at hm
  · intro i j
    rw [maskAt_thresholdMask 0 (le_refl 0)]
    simp only [maskPixel]
    by_cases h : segAt seg i j > 0 <;> simp [h]

/-- Witness for C2 at a concrete threshold pair and segmentation map. -/
theorem mask_binary_and_monotone_witness :
    maskAt (thresholdMask ((1 : ℚ)/4) [[(3 : ℚ)/4, 1/4]]) 0 0 = 255 := by
  have h := mask_binary_and_monotone ((1 : ℚ)/2) ((1 : ℚ)/4) ((1 : ℚ)/2)
    [[(3 : ℚ)/4, 1/4]] (by norm_num)
    (by
      intro row hrow v hv
      simp only [List.mem_singleton] at hrow
      subst hrow
      simp only [List.mem_cons, List.mem_singleton, List.not_mem_nil, or_false] at hv
      rcases hv with rfl | rfl <;> norm_num)
  exact h.2.2.1 (by norm_num) 0 0 (by norm_num [maskAt, thresholdMask, maskPixel])

/- ### C3 -/

/-- C3: when the inference adapter returns no landmark set for a cycle, the
pose loop builds no artifact and performs zero datagram sends, and the loop
breaks only on the quit key, not on the absent detection. -/
theorem no_detection_no_send (q : Bool) :
    (poseIteration true none q).1 = [] ∧
    ((poseIteration true none q).2 = true ↔ q = true) := by
  cases q <;> simp [poseIteration, poseSends]

/-- Witness for C3 with the quit key not pressed: zero sends and the loop
continues. -/
theorem no_detection_no_send_witness :
    (poseIteration true none false).1 = [] ∧
    ((poseIteration true none false).2 = true ↔ False) := by
  have h := no_detection_no_send false
  simpa using h

/- ### C4 -/

/-- C4 counterexample: the silhouette loop applies no blur, so its output is
not derived from the blurred mask: at a concrete segmentation map and valid
kernel, rendering from the raw thresholded mask differs from rendering from
the blurred mask. -/
theorem silhouette_not_from_blurred_mask :
    GaussKer uniform15 ∧
    silhouette [[(7 : ℚ)/10, 0]] [[(0, 0, 0), (0, 0, 0)]] ≠
      silhouette_blurred uniform15 [[(7 : ℚ)/10, 0]] [[(0, 0, 0), (0, 0, 0)]] := by
  have hmask : body_mask_src [[(7 : ℚ)/10, 0]] = [[255, 0]] := by
    norm_num [body_mask_src]
  refine ⟨⟨by decide, by decide⟩, ?_⟩
  unfold silhouette silhouette_blurred
  rw [hmask]
  decide

/-- C4 (amended): the matte output is gated pixelwise by the *blurred*
thresholded mask, while the silhouette output is rendered pixelwise from the
*raw* thresholded mask — the silhouette loop applies no blur. -/
theorem blur_usage_by_mode (k : List ℕ) (seg : SegMap) (frame : ColorFrame)
    (h w : ℕ) (hs : Dims h w seg) (hf : Dims h w frame) (i j : ℕ)
    (hi : i < h) (hj : j < w) :
    pxAt (silhouette seg frame) i j =
      (if maskAt (body_mask_src seg) i j = 255 then whitePx else (0, 0, 0)) ∧
    pxAt (body_only k seg frame) i j =
      (if maskAt (gaussianBlur k (body_mask_src seg)) i j ≠ 0 then pxAt frame i j
       else (0, 0, 0)) := by
  obtain ⟨hsl, hsr⟩ := hs
  obtain ⟨hfl, hfr⟩ := hf
  have hbl : (body_mask_src seg).length = h := by
    simp [body_mask_src, hsl]
  have hbrow : ∀ n, (body_mask_src seg).getD n [] = (seg.getD n []).map
      (fun v => (if v > 6/10 then 1 else 0) * 255) := by
    intro n
    exact getD_map_default
      (fun row => row.map (fun v => (if v > 6/10 then (1 : ℕ) else 0) * 255)) seg n []
  have hbrl : ((body_mask_src seg).getD i []).length = w := by
    rw [hbrow i, List.length_map]
    exact hsr (seg.getD i []) (getD_mem_of_lt seg i [] (by omega))
  have hfrl : (frame.getD i []).length = w :=
    hfr (frame.getD i []) (getD_mem_of_lt frame i [] (by omega))
  constructor
  · unfold silhouette silhouette_render pxAt
    rw [getD_zipWith _ (body_mask_src seg) frame i [] [] _ (by omega) (by omega)]
    rw [getD_zipWith _ ((body_mask_src seg).getD i []) (frame.getD i []) j 0 (0, 0, 0)
      (0, 0, 0) (by omega) (by omega)]
    rfl
  · have hgl : (gaussianBlur k (body_mask_src seg)).length = h := by
      rw [gaussianBlur_eq, List.length_map, List.length_range, hbl]
    have hhead : ((body_mask_src seg).headD []).length = w := by
      cases seg with
      | nil =>
        simp at hsl
        omega
      | cons r t =>
        have : body_mask_src (r :: t) =
            r.map (fun v => (if v > 6/10 then 1 else 0) * 255) ::
              t.map (fun row => row.map (fun v => (if v > 6/10 then 1 else 0) * 255)) := rfl
        rw [this, List.headD_cons, List.length_map]
        exact hsr r (by simp)
    have hgrow : (gaussianBlur k (body_mask_src seg)).getD i [] =
        (List.range w).map (fun j => blurPix k (body_mask_src seg) h w i j) := by
      rw [gaussianBlur_eq, hbl, hhead]
      exact getD_map_range _ h i [] hi
    have hgrl : ((gaussianBlur k (body_mask_src seg)).getD i []).length = w := by
      rw [hgrow, List.length_map, List.length_range]
    unfold body_only bitwise_and_masked pxAt
    rw [getD_zipWith _ frame (gaussianBlur k (body_mask_src seg)) i [] [] _
      (by omega) (by omega)]
    rw [getD_zipWith _ (frame.getD i []) ((gaussianBlur k (body_mask_src seg)).getD i [])
      j (0, 0, 0) 0 (0, 0, 0) (by omega) (by omega)]
    unfold maskAt
    simp only [landPx_self]

/-- Witness for C4's amended statement at a concrete mask and frame. -/
theorem blur_usage_by_mode_witness :
    pxAt (silhouette [[(7 : ℚ)/10, 0]] [[(1, 2, 3), (4, 5, 6)]]) 0 0 =
      (if maskAt (body_mask_src [[(7 : ℚ)/10, 0]]) 0 0 = 255 then whitePx else (0, 0, 0)) ∧
    pxAt (body_only uniform15 [[(7 : ℚ)/10, 0]] [[(1, 2, 3), (4, 5, 6)]]) 0 0 =
      (if maskAt (gaussianBlur uniform15 (body_mask_src [[(7 : ℚ)/10, 0]])) 0 0 ≠ 0
       then pxAt [[(1, 2, 3), (4, 5, 6)]] 0 0 else (0, 0, 0)) :=
  blur_usage_by_mode uniform15 [[(7 : ℚ)/10, 0]] [[(1, 2, 3), (4, 5, 6)]] 1 2
    ⟨by decide, by decide⟩ ⟨by decide, by decide⟩ 0 0 (by decide) (by decide)

/- ### C5 -/

/-- C5: with the source's threshold 0.6 in matte mode, a segmentation map that
is 0.9 everywhere yields a pre-blur mask that is 255 everywhere, and a
`body_only` output identical to the input frame (full pass-through). -/
theorem matte_full_passthrough (k : List ℕ) (hk : GaussKer k) (h w : ℕ)
    (frame : ColorFrame) (hf : Dims h w frame) :
    body_mask_src (constSeg h w (9/10)) = List.replicate h (List.replicate w 255) ∧
    body_only k (constSeg h w (9/10)) frame = frame := by
  have hmask : body_mask_src (constSeg h w (9/10)) =
      List.replicate h (List.replicate w 255) := by
    unfold body_mask_src constSeg
    rw [List.map_replicate, List.map_replicate]
    norm_num
  refine ⟨hmask, ?_⟩
  unfold body_only
  rw [hmask, gaussianBlur_const255 k hk h w, bitwise_and_masked_all255 frame h w hf]

/-- Witness for C5 with the uniform kernel on a 1×1 frame. -/
theorem matte_full_passthrough_witness :
    body_only uniform15 (constSeg 1 1 ((9 : ℚ)/10)) [[((5 : ℕ), 9, 200)]] =
      [[(5, 9, 200)]] :=
  (matte_full_passthrough uniform15 ⟨by decide, by decide⟩ 1 1
    [[((5 : ℕ), 9, 200)]] ⟨by decide, by decide⟩).2

/- ### C6 -/

/-- C6 counterexample: the source transform is not parameterized by a
caller-supplied threshold: at the in-range threshold 0.5 it disagrees with
the parametric transform on the confidence 0.55, because 0.6 is hardcoded. -/
theorem threshold_not_configurable :
    (0 : ℚ) ≤ 1/2 ∧ (1 : ℚ)/2 ≤ 1 ∧
    body_mask_src [[(11 : ℚ)/20]] ≠ thresholdMask (1/2) [[(11 : ℚ)/20]] := by
  have h1 : body_mask_src [[(11 : ℚ)/20]] = [[0]] := by
    norm_num [body_mask_src]
  have h2 : thresholdMask (1/2) [[(11 : ℚ)/20]] = [[255]] := by
    norm_num [thresholdMask, maskPixel]
  refine ⟨by norm_num, by norm_num, ?_⟩
  rw [h1, h2]
  decide

/-- C6 (amended): threshold and kernel size are fixed constants of the
implementation, not caller-supplied configuration: the source transform
coincides with the parametric transform at the hardcoded θ = 0.6, and every
kernel admitted by the blur model has the hardcoded size 15. -/
theorem threshold_kernel_fixed_constants (seg : SegMap) (k : List ℕ) (hk : GaussKer k) :
    body_mask_src seg = thresholdMask (6/10) seg ∧ k.length = 15 :=
  ⟨rfl, hk.1⟩

/-- Witness for C6 at a concrete segmentation map and the uniform kernel. -/
theorem threshold_kernel_fixed_constants_witness :
    body_mask_src [[(1 : ℚ)]] = thresholdMask (6/10) [[(1 : ℚ)]] ∧
    uniform15.length = 15 :=
  threshold_kernel_fixed_constants [[(1 : ℚ)]] uniform15 ⟨by decide, by decide⟩

/- ### C7 -/

/-- How a capture-loop iteration can turn out. -/
inductive IterEv where
  /-- `ret` was false: print and break. -/
  | readFail
  /-- an exception was raised downstream of capture (inference, build, send);
  the source has no try/finally, so it propagates out of the cell. -/
  | downstreamExc
  /-- waitKey saw q: break. -/
  | quit
  /-- the iteration completed and the loop continues. -/
  | proceed
deriving DecidableEq

/-- How a run of the capture loop ended. -/
inductive ExitKind where
  | stopSignal
  | endOfStream
  | exception
deriving DecidableEq

/-- Executes the capture loop over a script of per-iteration outcomes,
counting `cap.release()` calls: the release after the loop runs on `break`
exits (stop signal, end-of-stream) but an uncaught exception aborts the cell
before reaching it.  An exhausted script models `cap.isOpened()` turning
false. -/
def capLoopRun : List IterEv → ℕ × ExitKind
  | [] => (1, .endOfStream)
  | .readFail :: _ => (1, .endOfStream)
  | .downstreamExc :: _ => (0, .exception)
  | .quit :: _ => (1, .stopSignal)
  | .proceed :: rest => capLoopRun rest

/-- OpenCV's `VideoCapture.release` on an already-released handle is a no-op:
the handle (open flag) simply becomes/stays closed. -/
def releaseCap (_ : Bool) : Bool := false

/-- C7 counterexample: on the exit path where an exception is raised
downstream of capture, the device is released zero times, not once — the
source has no try/finally around the loop. -/
theorem exception_path_skips_release :
    capLoopRun [IterEv.proceed, IterEv.downstreamExc] = (0, ExitKind.exception) ∧
    (capLoopRun [IterEv.proceed, IterEv.downstreamExc]).1 ≠ 1 := by
  refine ⟨rfl, ?_⟩
  decide

/-- C7 (amended): the device is released exactly once on the stop-signal and
end-of-stream exit paths, but zero times when an exception propagates from
downstream of capture; a second release of an already-closed handle is a
no-op. -/
theorem release_on_exit_paths (evs : List IterEv) :
    ((capLoopRun evs).2 ≠ ExitKind.exception → (capLoopRun evs).1 = 1) ∧
    ((capLoopRun evs).2 = ExitKind.exception → (capLoopRun evs).1 = 0) ∧
    releaseCap (releaseCap true) = releaseCap true := by
  induction evs with
  | nil => exact ⟨fun _ => rfl, fun h => by simp [capLoopRun] at h, rfl⟩
  | cons e rest ih =>
    cases e with
    | readFail => exact ⟨fun _ => rfl, fun h => by simp [capLoopRun] at h, rfl⟩
    | downstreamExc => exact ⟨fun h => absurd rfl h, fun _ => rfl, rfl⟩
    | quit => exact ⟨fun _ => rfl, fun h => by simp [capLoopRun] at h, rfl⟩
    | proceed => exact ih

/-- Witness for C7's amended statement: a run that ends on the quit key
releases exactly once. -/
theorem release_on_exit_paths_witness :
    (capLoopRun [IterEv.proceed, IterEv.quit]).1 = 1 :=
  (release_on_exit_paths [IterEv.proceed, IterEv.quit]).1 (by decide)

/- ### C8 -/

/-- Observable pipeline actions of one loop iteration, in program order. -/
inductive PipeEv where
  | capture
  | infer
  | publish
  | display
  | stopCheck
deriving DecidableEq

/-- Event trace of one pose-loop iteration: read, process, (guarded) send,
imshow, then the waitKey quit check, in source order. -/
def poseCycleTrace (hasLms : Bool) : List PipeEv :=
  [.capture, .infer] ++ (if hasLms then [.publish] else []) ++ [.display, .stopCheck]

/-- Event trace of one silhouette-loop iteration: read, process, draw_and_send,
imshow, then the waitKey quit check, in source order. -/
def silhouetteCycleTrace : List PipeEv :=
  [.capture, .infer, .publish, .display, .stopCheck]

/-- C8: in both loops, each cycle checks the stop signal exactly once, as the
last action of the cycle — after any publish of that cycle and before the
capture that starts the next cycle. -/
theorem stop_checked_after_publish (hasLms : Bool) :
    (∃ pre, poseCycleTrace hasLms = pre ++ [PipeEv.stopCheck] ∧
      PipeEv.stopCheck ∉ pre) ∧
    (poseCycleTrace hasLms).head? = some PipeEv.capture ∧
    (∃ pre, silhouetteCycleTrace = pre ++ [PipeEv.stopCheck] ∧
      PipeEv.stopCheck ∉ pre) ∧
    silhouetteCycleTrace.head? = some PipeEv.capture := by
  refine ⟨?_, ?_, ⟨[.capture, .infer, .publish, .display], rfl, by decide⟩, rfl⟩
  · cases hasLms with
    | false => exact ⟨[.capture, .infer, .display], rfl, by decide⟩
    | true => exact ⟨[.capture, .infer, .publish, .display], rfl, by decide⟩
  · cases hasLms with
    | false => rfl
    | true => rfl

/-- Witness for C8: the conclusion instantiated at a cycle with a detection. -/
theorem stop_checked_after_publish_witness :
    (poseCycleTrace true).head? = some PipeEv.capture ∧
    silhouetteCycleTrace.head? = some PipeEv.capture :=
  ⟨(stop_checked_after_publish true).2.1, (stop_checked_after_publish true).2.2.2⟩

/- ### C9 -/

/-- C9: in matte mode the blurred mask acts as a binary gate: every output
pixel of the masked copy is either exactly the source pixel (mask nonzero) or
exactly black (mask zero); no partial blend ever occurs. -/
theorem masked_copy_binary_gate (frame : ColorFrame) (mask : Mask) (i j : ℕ)
    (hif : i < frame.length) (him : i < mask.length)
    (hjf : j < (frame.getD i []).length) (hjm : j < (mask.getD i []).length) :
    pxAt (bitwise_and_masked frame mask) i j =
      if maskAt mask i j ≠ 0 then pxAt frame i j else (0, 0, 0) := by
  unfold bitwise_and_masked pxAt maskAt
  rw [getD_zipWith _ frame mask i [] [] _ hif him]
  rw [getD_zipWith _ (frame.getD i []) (mask.getD i []) j (0, 0, 0) 0 (0, 0, 0) hjf hjm]
  simp only [landPx_self]

/-- Witness for C9 on a concrete frame and mask with one pass and one block. -/
theorem masked_copy_binary_gate_witness :
    pxAt (bitwise_and_masked [[(10, 20, 30), (40, 50, 60)]] [[7, 0]]) 0 0 =
      (if maskAt [[7, 0]] 0 0 ≠ 0 then pxAt [[(10, 20, 30), (40, 50, 60)]] 0 0
       else (0, 0, 0)) :=
  masked_copy_binary_gate [[(10, 20, 30), (40, 50, 60)]] [[7, 0]] 0 0
    (by decide) (by decide) (by decide) (by decide)

/- ### C10 -/

/-- State of the enumeration scan: currently open capture handles, and the
number of `cap.release()` calls so far. -/
abbrev ScanState := List ℕ × ℕ

/-- One index of `list_camera_devices`: `cap = cv2.VideoCapture(index)`; if it
opened, the camera is recorded and `cap.release()` is called before moving to
the next index; otherwise nothing was opened. -/
def camStep (st : ScanState) (idx : ℕ) (opens : Bool) : ScanState :=
  if opens then ((idx :: st.1).erase idx, st.2 + 1)
  else st

/-- `list_camera_devices`, over the outcomes of probing each index in turn:
returns the handles still open at the end and the number of release calls. -/
def list_camera_devices (devs : List Bool) : ScanState :=
  ((List.range devs.length).zip devs).foldl (fun st p => camStep st p.1 p.2) ([], 0)

theorem camScan_invariant (ps : List (ℕ × Bool)) (st : ScanState) (h : st.1 = []) :
    (ps.foldl (fun st p => camStep st p.1 p.2) st).1 = [] ∧
    (ps.foldl (fun st p => camStep st p.1 p.2) st).2 =
      st.2 + (ps.map Prod.snd).count true := by
  induction ps generalizing st with
  | nil => simpa using h
  | cons p rest ih =>
    cases hb : p.2 with
    | false =>
      have hstep : camStep st p.1 p.2 = st := by
        rw [hb]
        simp [camStep]
      simp only [List.foldl_cons, hstep]
      obtain ⟨h1, h2⟩ := ih st h
      refine ⟨h1, ?_⟩
      rw [h2]
      simp [hb]
    | true =>
      have hstep : camStep st p.1 p.2 = ([], st.2 + 1) := by
        rw [hb]
        simp only [camStep, if_pos]
        rw [h, List.erase_cons_head]
      simp only [List.foldl_cons, hstep]
      obtain ⟨h1, h2⟩ := ih ([], st.2 + 1) rfl
      refine ⟨h1, ?_⟩
      rw [h2]
      simp [hb]
      omega

/-- C10: for every set of probed indices, the enumeration releases every
capture handle it successfully opened — one release per successful open — and
leaves no device open when it returns. -/
theorem enumeration_releases_all (devs : List Bool) :
    (list_camera_devices devs).1 = [] ∧
    (list_camera_devices devs).2 = devs.count true := by
  unfold list_camera_devices
  obtain ⟨h1, h2⟩ := camScan_invariant ((List.range devs.length).zip devs) ([], 0) rfl
  refine ⟨h1, ?_⟩
  rw [h2]
  have hmap : ((List.range devs.length).zip devs).map Prod.snd = devs := by
    rw [List.map_snd_zip]
    rw [List.length_range]
  rw [hmap]
  simp

/-- Witness for C10 on the six-index probe of the source with two devices
present. -/
theorem enumeration_releases_all_witness :
    (list_camera_devices [true, false, true, false, false, false]).1 = [] ∧
    (list_camera_devices [true, false, true, false, false, false]).2 = 2 :=
  enumeration_releases_all [true, false, true, false, false, false]

end TrackingBody
